import Mathlib

/-!
Shallow embedding of `freespringer.py` (a catalog of free Springer books with
bulk download).  Pure data is modelled directly; the global dictionaries of the
Python module become association lists (preserving insertion order, as Python
dicts do); the network and the filesystem become explicit parameters and an
explicit state threaded through the download loop; Python exceptions become
`Except`.
-/

namespace Freespringer

/-! ## String helpers mirroring the Python string operations -/

/-- Mirrors Python `str.split(sep)` for a one-character separator, on the
character list: keeps empty fields, always returns at least one field. -/
def splitAnyAux (p : Char → Bool) : List Char → List (List Char)
  | [] => [[]]
  | ch :: rest =>
    match splitAnyAux p rest with
    | [] => [[]]
    | t :: ts => if p ch then [] :: t :: ts else (ch :: t) :: ts

def splitAny (p : Char → Bool) (s : String) : List String :=
  (splitAnyAux p s.data).map (fun l => String.mk l)

/-- Python `subjects.split(';')`. -/
def pySplit (s : String) (c : Char) : List String :=
  splitAny (fun ch => ch == c) s

/-- Python `str.strip()`: drop leading and trailing whitespace. -/
def pyStrip (s : String) : String :=
  String.mk (((s.data.dropWhile Char.isWhitespace).reverse.dropWhile Char.isWhitespace).reverse)

/-- Python `s[:n]`: the first `n` characters. -/
def pyTake (s : String) (n : Nat) : String :=
  String.mk (s.data.take n)

/-- Python `str.split()` (no argument): split on whitespace, dropping empty
fields. -/
def pySplitWS (s : String) : List String :=
  (splitAny Char.isWhitespace s).filter (fun t => t != "")

/-- `"-".join(bookname.split())` from `_download_book`. -/
def sanitizeTitle (s : String) : String :=
  String.intercalate "-" (pySplitWS s)

/-! ## Association lists modelling Python dicts (insertion-ordered) -/

/-- Python `m[k]` with a default (`defaultdict` read, or a read at a key known
to be present). -/
def alistGet {κ α : Type} [DecidableEq κ] : List (κ × α) → κ → α → α
  | [], _, d => d
  | (k1, v) :: rest, k, d => if k = k1 then v else alistGet rest k d

/-- Update the value at `k` with `f` if present, otherwise append `(k, f d)`:
the common shape of `m[k] = v`, `defaultdict(list)[k].append v` and
`defaultdict(set)[k].add v`. -/
def alistUpd {κ α : Type} [DecidableEq κ] (f : α → α) (d : α) : List (κ × α) → κ → List (κ × α)
  | [], k => [(k, f d)]
  | (k1, v) :: rest, k =>
    if k = k1 then (k1, f v) :: rest else (k1, v) :: alistUpd f d rest k

/-- Python `m[k] = v` on a dict. -/
def alistSet {κ α : Type} [DecidableEq κ] (m : List (κ × α)) (k : κ) (v : α) : List (κ × α) :=
  alistUpd (fun _ => v) v m k

/-- Python `defaultdict(list)`: `m[k].append(v)`. -/
def alistAppend {κ α : Type} [DecidableEq κ] (m : List (κ × List α)) (k : κ) (v : α) :
    List (κ × List α) :=
  alistUpd (fun vs => vs ++ [v]) [] m k

/-- Python `defaultdict(set)`: `m[k].add(v)` (sets modelled as duplicate-free
lists in insertion order). -/
def alistInsert {κ α : Type} [DecidableEq κ] [DecidableEq α] (m : List (κ × List α)) (k : κ)
    (v : α) : List (κ × List α) :=
  alistUpd (fun vs => if v ∈ vs then vs else vs ++ [v]) [] m k

/-! ## The taxonomy indexer (`setup_globals`) -/

/-- `LONGEST = 50  # longest topic name` -/
def LONGEST : Nat := 50

/-- Line 106: `subj if len(subj) < LONGEST else subj[:LONGEST-3]+"..."`. -/
def truncateName (subj : String) : String :=
  if subj.length < LONGEST then subj else pyTake subj (LONGEST - 3) ++ "..."

/-- Lines 105-106: split the raw subjects field on `;`, strip each token, then
truncate each token. -/
def processSubjects (s : String) : List String :=
  ((pySplit s ';').map pyStrip).map truncateName

/-- A raw `(title, package, subjects, doi)` tuple as consumed by
`setup_globals`.  The title type is a parameter so that a record with a
missing (`None`) title can also be represented, as `RawRecordG (Option String)`;
the Python code never inspects the title, it only stores it. -/
structure RawRecordG (τ : Type) where
  title : τ
  package : String
  subjects : String
  doi : String
  deriving DecidableEq

abbrev RawRecord := RawRecordG String

/-- The dictionaries mutated by the per-record loop of `setup_globals`
(lines 101-113): `PACKAGES_BOOKS`, `SUBJECTS_BOOKS`, `BOOKS_TITLES`,
`BOOKS_PACKAGES`, `PACKAGES_RELS`, `SUBJECTS_RELS`. -/
structure BuildState (τ : Type) where
  packagesBooks : List (String × List String)
  subjectsBooks : List (String × List String)
  booksTitles : List (String × τ)
  booksPackages : List (String × String)
  packagesRels : List (String × List String)
  subjectsRels : List (String × List String)
  deriving DecidableEq

def emptyBuild (τ : Type) : BuildState τ := ⟨[], [], [], [], [], []⟩

/-- Lines 110-112, the body of `for subj in subjects`. -/
def subjStep (package doi : String) {τ : Type} (st : BuildState τ) (subj : String) :
    BuildState τ :=
  { st with
    subjectsBooks := alistAppend st.subjectsBooks subj doi
    packagesRels := alistInsert st.packagesRels package subj
    subjectsRels := alistInsert st.subjectsRels subj package }

/-- Lines 104-113, the body of `for title, package, subjects, doi in books`,
with the subjects field already processed into its token list. -/
def buildStepCore {τ : Type} (st : BuildState τ) (title : τ) (package : String)
    (subjects : List String) (doi : String) : BuildState τ :=
  let st1 := { st with
    packagesBooks := alistAppend st.packagesBooks package doi
    booksPackages := alistSet st.booksPackages doi package }
  let st2 := subjects.foldl (subjStep package doi) st1
  { st2 with booksTitles := alistSet st2.booksTitles doi title }

def buildStep {τ : Type} (st : BuildState τ) (r : RawRecordG τ) : BuildState τ :=
  buildStepCore st r.title r.package (processSubjects r.subjects) r.doi

/-- The global index as it stands after `setup_globals` returns (lines 86-93
plus the two per-call locals `PACKAGES_BOOKS` and `SUBJECTS_BOOKS`). -/
structure IndexG (τ : Type) where
  booksTitles : List (String × τ)
  booksPackages : List (String × String)
  packagesBooks : List (String × List String)
  subjectsBooks : List (String × List String)
  packagesRels : List (String × List String)
  subjectsRels : List (String × List String)
  idsOfPackages : List (String × Int)
  idsOfSubjects : List (String × Int)
  topicsIds : List (Int × String)
  topicsBooks : List (Int × List String)
  deriving DecidableEq

abbrev Index := IndexG String

/-- Python `enumerate(names, start=n)` flipped into `(name, id)` pairs, as the
two `IDS_OF_*` loops build them. -/
def enumFrom (n : Int) : List String → List (String × Int)
  | [] => []
  | x :: xs => (x, n) :: enumFrom (n + 1) xs

/-- Lexicographic comparison of character lists by code point, the order
Python's `sorted` uses on strings. -/
def lexLe : List Char → List Char → Bool
  | [], _ => true
  | _ :: _, [] => false
  | a :: as, b :: bs =>
    if a.toNat < b.toNat then true
    else if b.toNat < a.toNat then false
    else lexLe as bs

def strLe (a b : String) : Bool := lexLe a.data b.data

/-- Python `sorted` on strings (keys are distinct, so stability is moot). -/
def pySorted (l : List String) : List String :=
  List.insertionSort (fun a b => strLe a b = true) l

/-- Lines 114-123: assign IDs to the sorted package and subject names and
re-key the two book-list dicts through them. -/
def finalize {τ : Type} (st : BuildState τ) : IndexG τ :=
  let idsOfPackages := enumFrom 1 (pySorted (st.packagesRels.map Prod.fst))
  let idsOfSubjects :=
    enumFrom (1 + (st.packagesRels.length : Int)) (pySorted (st.subjectsRels.map Prod.fst))
  let topicsIds := (idsOfPackages ++ idsOfSubjects).map (fun p => (p.2, p.1))
  let tb1 := st.packagesBooks.foldl (fun tb p => alistSet tb (alistGet idsOfPackages p.1 0) p.2) []
  let topicsBooks :=
    st.subjectsBooks.foldl (fun tb p => alistSet tb (alistGet idsOfSubjects p.1 0) p.2) tb1
  { booksTitles := st.booksTitles
    booksPackages := st.booksPackages
    packagesBooks := st.packagesBooks
    subjectsBooks := st.subjectsBooks
    packagesRels := st.packagesRels
    subjectsRels := st.subjectsRels
    idsOfPackages := idsOfPackages
    idsOfSubjects := idsOfSubjects
    topicsIds := topicsIds
    topicsBooks := topicsBooks }

def setup_globalsG {τ : Type} (books : List (RawRecordG τ)) : IndexG τ :=
  finalize (books.foldl buildStep (emptyBuild τ))

/-- `setup_globals` on well-formed records (every field a string). -/
def setup_globals (books : List RawRecord) : Index :=
  setup_globalsG books

/-- `setup_globals` on records whose title cell may be missing (`None`). -/
def setup_globals_optTitle (books : List (RawRecordG (Option String))) :
    IndexG (Option String) :=
  setup_globalsG books

/-- The worked example of spec section 8. -/
def exRecords : List RawRecord :=
  [⟨"Book A", "Pkg1", "Math; Physics", "10.1/aaa"⟩,
   ⟨"Book B", "Pkg1", "Math", "10.1/bbb"⟩,
   ⟨"Book C", "Pkg2", "Physics", "10.1/ccc"⟩]

def exIndex : Index := setup_globals exRecords

example : processSubjects "Math; Physics" = ["Math", "Physics"] := by decide
example : exIndex.idsOfPackages = [("Pkg1", 1), ("Pkg2", 2)] := by decide
example : exIndex.idsOfSubjects = [("Math", 3), ("Physics", 4)] := by decide
example : exIndex.topicsBooks =
    [(1, ["10.1/aaa", "10.1/bbb"]), (2, ["10.1/ccc"]),
     (3, ["10.1/aaa", "10.1/bbb"]), (4, ["10.1/aaa", "10.1/ccc"])] := by decide

/-! ## The topic catalog (`print_books_in_topic`, lines 194-210) -/

/-- One console message emitted by `print_books_in_topic` for one requested
ID: either the "no such package/subject" line or the topic's name with its
book titles. -/
inductive TopicOutput where
  | noPackage (i : Int)
  | packageBooks (name : String) (titles : List String)
  | noSubject (i : Int)
  | subjectBooks (name : String) (titles : List String)
  deriving DecidableEq

/-- Lines 194-210.  The package loop checks `0 < idx <= len(PACKAGES_RELS)`;
the subject loop checks `len(PACKAGES_RELS) < idx <= len(SUBJECTS_RELS)`;
an ID failing its check produces the "NO ..." line and `continue`s. -/
def print_books_in_topic (idx : Index) (subjects packages : List Int) : List TopicOutput :=
  packages.map (fun i =>
    if 0 < i ∧ i ≤ (idx.packagesRels.length : Int) then
      TopicOutput.packageBooks (alistGet idx.topicsIds i "")
        ((alistGet idx.topicsBooks i []).map (fun doi => alistGet idx.booksTitles doi ""))
    else TopicOutput.noPackage i)
  ++ subjects.map (fun i =>
    if (idx.packagesRels.length : Int) < i ∧ i ≤ (idx.subjectsRels.length : Int) then
      TopicOutput.subjectBooks (alistGet idx.topicsIds i "")
        ((alistGet idx.topicsBooks i []).map (fun doi => alistGet idx.booksTitles doi ""))
    else TopicOutput.noSubject i)

/-! ## The download orchestrator (`_download_book` and `download_books`,
lines 213-261)

The network is an environment assigning each DOI the HTTP status its fetch
returns; the filesystem is the set of existing directories.  `requests.get`
and the file write are recorded as events.  A Python exception escaping
`_download_book` (there is no try/except around `mkdir`) becomes the
`Except.error` case, which aborts the surrounding loops exactly as an
uncaught exception would; it carries the state at the moment of the raise. -/

/-- The remote server: HTTP status returned for each book identifier. -/
structure Env where
  status : String → Nat

inductive DlEvent where
  | fetch (doi : String)
  | write (path : List String) (doi : String)
  deriving DecidableEq

inductive FsError where
  | mkdirFail (path : List String)
  deriving DecidableEq

/-- Filesystem plus the per-call download state: existing directories, the
`already_downloaded` dedup set (insertion order), and the event log. -/
structure DlState where
  dirs : List (List String)
  already : List String
  events : List DlEvent
  deriving DecidableEq

/-- The current working directory (the empty path) always exists. -/
def dirExists (dirs : List (List String)) (p : List String) : Bool :=
  p = [] || p ∈ dirs

/-- `path.parent.mkdir(exist_ok=True)` — no `parents=True`: creating `p`
requires `p`'s own parent to exist already. -/
def mkdirExistOk (dirs : List (List String)) (p : List String) :
    Except FsError (List (List String)) :=
  if dirExists dirs p then .ok dirs
  else if dirExists dirs p.dropLast then .ok (dirs ++ [p])
  else .error (.mkdirFail p)

/-- `pathlib.PurePath.suffix`: the index of the last `.` in a name. -/
def rfindDot : List Char → Option Nat
  | [] => none
  | c :: rest =>
    match rfindDot rest with
    | some i => some (i + 1)
    | none => if c = '.' then some 0 else none

/-- `pathlib.PurePath.with_suffix`: if the name has a non-empty suffix (its
last `.` at position `i` with `0 < i < len-1`), replace from that dot on;
otherwise append. -/
def pyWithSuffix (name sfx : String) : String :=
  match rfindDot name.data with
  | none => name ++ sfx
  | some i =>
    if 0 < i ∧ i < name.data.length - 1 then String.mk (name.data.take i) ++ sfx
    else name ++ sfx

/-- Line 231: `dest.joinpath(group, filename).with_suffix('.' + ext)`,
with paths as component lists (`joinpath` with `''` is a no-op). -/
def bookPath (dest : List String) (group filename ext : String) : List String :=
  dest ++ (if group = "" then [] else [group]) ++ [pyWithSuffix filename ("." ++ ext)]

/-- The full destination path of `doi`'s file: `BOOKS_TITLES[doi]` sanitized,
joined under `dest` (and the group directory), with the suffix swapped in. -/
def bookFullPath (idx : Index) (dest : List String) (group ext doi : String) : List String :=
  bookPath dest group (sanitizeTitle (alistGet idx.booksTitles doi "")) ext

/-- Lines 219-245.  Skip if already downloaded; otherwise mkdir the parent
(uncaught failure aborts), fetch, bail out on a non-200 status, else write the
file and add the DOI to the dedup set. -/
def _download_book (idx : Index) (env : Env) (doi : String) (dest : List String)
    (ext : String) (group : String) (st : DlState) : Except (FsError × DlState) DlState :=
  if doi ∈ st.already then .ok st
  else
    match mkdirExistOk st.dirs (bookFullPath idx dest group ext doi).dropLast with
    | .error e => .error (e, st)
    | .ok dirs1 =>
      if env.status doi = 200 then
        .ok ⟨dirs1, st.already ++ [doi],
          st.events ++ [.fetch doi, .write (bookFullPath idx dest group ext doi) doi]⟩
      else .ok ⟨dirs1, st.already, st.events ++ [.fetch doi]⟩

/-- The inner loop of `download_books`: the books of one topic. -/
def dlBookList (idx : Index) (env : Env) (dest : List String) (ext : String) (group : Bool) :
    List String → DlState → Except (FsError × DlState) DlState
  | [], st => .ok st
  | doi :: rest, st =>
    match _download_book idx env doi dest ext
        (if group then alistGet idx.booksPackages doi "" else "") st with
    | .error f => .error f
    | .ok st1 => dlBookList idx env dest ext group rest st1

/-- The outer loop of `download_books`: `for tid in topics`, reading
`TOPICS_BOOKS[tid]` (a `defaultdict`, so an unknown ID reads as `[]`). -/
def dlTopics (idx : Index) (env : Env) (dest : List String) (ext : String) (group : Bool) :
    List Int → DlState → Except (FsError × DlState) DlState
  | [], st => .ok st
  | tid :: rest, st =>
    match dlBookList idx env dest ext group (alistGet idx.topicsBooks tid []) st with
    | .error f => .error f
    | .ok st1 => dlTopics idx env dest ext group rest st1

/-- Lines 248-261.  An unsupported format is reported and the call returns
with nothing done; otherwise every requested topic's books are processed with
a fresh (empty) dedup set.  (The index is taken as a parameter: in the script
it is the global state that `setup_globals` populated.) -/
def download_books (idx : Index) (env : Env) (topics : List Int) (dest : List String)
    (ext : String) (group : Bool) (dirs : List (List String)) :
    Except (FsError × DlState) DlState :=
  if ext = "pdf" ∨ ext = "epub" then dlTopics idx env dest ext group topics ⟨dirs, [], []⟩
  else .ok ⟨dirs, [], []⟩

def fetchCountE (events : List DlEvent) (doi : String) : Nat :=
  (events.filter (fun e => e == DlEvent.fetch doi)).length

def writeCountE (events : List DlEvent) (doi : String) : Nat :=
  (events.filter (fun e =>
    match e with
    | .write _ d => d == doi
    | _ => false)).length

/-- Number of `requests.get` calls for `doi` in the log. -/
def fetchCount (st : DlState) (doi : String) : Nat :=
  fetchCountE st.events doi

/-- Number of file writes for `doi` in the log. -/
def writeCount (st : DlState) (doi : String) : Nat :=
  writeCountE st.events doi

/-- Occurrences of `doi` in a DOI list. -/
def countOcc (l : List String) (doi : String) : Nat :=
  (l.filter (fun d => d == doi)).length

/-- The DOI stream `download_books` walks for a topic list: the concatenation
of `TOPICS_BOOKS[tid]` over the requested IDs, in order. -/
def topicDois (idx : Index) : List Int → List String
  | [] => []
  | t :: ts => alistGet idx.topicsBooks t [] ++ topicDois idx ts

instance exceptDecEq {ε α : Type} [DecidableEq ε] [DecidableEq α] :
    DecidableEq (Except ε α) := fun x y =>
  match x, y with
  | .ok a, .ok b =>
    if h : a = b then isTrue (by rw [h]) else isFalse (fun hh => by cases hh; exact h rfl)
  | .error a, .error b =>
    if h : a = b then isTrue (by rw [h]) else isFalse (fun hh => by cases hh; exact h rfl)
  | .ok _, .error _ => isFalse (fun hh => by cases hh)
  | .error _, .ok _ => isFalse (fun hh => by cases hh)

def envAll200 : Env := ⟨fun _ => 200⟩
def envAll404 : Env := ⟨fun _ => 404⟩

example :
    download_books exIndex envAll200 [1, 3] [] "pdf" false [] =
      .ok ⟨[], ["10.1/aaa", "10.1/bbb"],
        [.fetch "10.1/aaa", .write ["Book-A.pdf"] "10.1/aaa",
         .fetch "10.1/bbb", .write ["Book-B.pdf"] "10.1/bbb"]⟩ := by decide

example :
    download_books exIndex envAll404 [1, 3] [] "pdf" false [] =
      .ok ⟨[], [],
        [.fetch "10.1/aaa", .fetch "10.1/bbb",
         .fetch "10.1/aaa", .fetch "10.1/bbb"]⟩ := by decide

example :
    download_books exIndex envAll200 [1] ["x", "y"] "pdf" false [] =
      .error (.mkdirFail ["x", "y"], ⟨[], [], []⟩) := by decide

/-! ## Association-list lemmas -/

theorem alistGet_upd_self {κ α : Type} [DecidableEq κ] (f : α → α) (d : α)
    (m : List (κ × α)) (k : κ) (d1 : α) :
    alistGet (alistUpd f d m k) k d1 = f (alistGet m k d) := by
  induction m with
  | nil => simp [alistUpd, alistGet]
  | cons hd tl ih =>
    obtain ⟨k1, v⟩ := hd
    by_cases h : k = k1 <;> simp [alistUpd, alistGet, h, ih]

theorem alistGet_upd_other {κ α : Type} [DecidableEq κ] (f : α → α) (d : α)
    (m : List (κ × α)) (k k2 : κ) (d1 : α) (hne : k2 ≠ k) :
    alistGet (alistUpd f d m k) k2 d1 = alistGet m k2 d1 := by
  induction m with
  | nil => simp [alistUpd, alistGet, hne]
  | cons hd tl ih =>
    obtain ⟨k1, v⟩ := hd
    by_cases h : k = k1
    · subst h
      simp [alistUpd, alistGet, hne]
    · by_cases h2 : k2 = k1 <;> simp [alistUpd, alistGet, h, h2, ih]

theorem mem_keys_upd {κ α : Type} [DecidableEq κ] (f : α → α) (d : α)
    (m : List (κ × α)) (k a : κ) :
    a ∈ (alistUpd f d m k).map Prod.fst ↔ a ∈ m.map Prod.fst ∨ a = k := by
  induction m with
  | nil => simp [alistUpd]
  | cons hd tl ih =>
    obtain ⟨k1, v⟩ := hd
    by_cases h : k = k1
    · subst h
      constructor
      · intro hm
        rcases (by simpa [alistUpd] using hm) with h1 | h1
        · exact Or.inr h1
        · exact Or.inl (by simp [h1])
      · intro hm
        rcases hm with h1 | h1
        · rcases (by simpa using h1) with h2 | h2 <;> simp [alistUpd, h2]
        · simp [alistUpd, h1]
    · simp only [alistUpd, if_neg h, List.map_cons, List.mem_cons, ih]
      tauto

theorem nodup_keys_upd {κ α : Type} [DecidableEq κ] (f : α → α) (d : α)
    (m : List (κ × α)) (k : κ) (h : (m.map Prod.fst).Nodup) :
    ((alistUpd f d m k).map Prod.fst).Nodup := by
  induction m with
  | nil => simp [alistUpd]
  | cons hd tl ih =>
    obtain ⟨k1, v⟩ := hd
    simp only [List.map_cons, List.nodup_cons] at h
    by_cases hk : k = k1
    · simpa [alistUpd, hk, List.nodup_cons] using h
    · simp only [alistUpd, if_neg hk, List.map_cons, List.nodup_cons]
      refine ⟨fun hm => ?_, ih h.2⟩
      rcases (mem_keys_upd f d tl k k1).1 hm with h1 | h1
      · exact h.1 h1
      · exact hk h1.symm

theorem alistGet_not_mem {κ α : Type} [DecidableEq κ] (m : List (κ × α)) (k : κ) (d : α)
    (h : k ∉ m.map Prod.fst) : alistGet m k d = d := by
  induction m with
  | nil => rfl
  | cons hd tl ih =>
    obtain ⟨k1, v⟩ := hd
    simp only [List.map_cons, List.mem_cons, not_or] at h
    simp [alistGet, h.1, ih h.2]

theorem alistGet_upd_mono {κ β : Type} [DecidableEq κ] (f : List β → List β)
    (hf : ∀ vs, vs ⊆ f vs) (m : List (κ × List β)) (k k2 : κ) (x : β)
    (hx : x ∈ alistGet m k2 []) : x ∈ alistGet (alistUpd f [] m k) k2 [] := by
  by_cases h : k2 = k
  · subst h
    rw [alistGet_upd_self]
    exact hf _ hx
  · rwa [alistGet_upd_other _ _ _ _ _ _ h]

/-! ## Lemmas about the subject-field processing -/

theorem splitAnyAux_ne_nil (p : Char → Bool) (l : List Char) : splitAnyAux p l ≠ [] := by
  cases l with
  | nil => simp [splitAnyAux]
  | cons c rest =>
    simp only [splitAnyAux]
    rcases h : splitAnyAux p rest with _ | ⟨t, ts⟩
    · simp
    · by_cases hc : p c <;> simp [hc]

theorem processSubjects_ne_nil (s : String) : processSubjects s ≠ [] := by
  simp only [processSubjects, pySplit, splitAny, ne_eq, List.map_eq_nil_iff]
  exact splitAnyAux_ne_nil _ _

/-! ## The sort order: totality and transitivity of `lexLe` -/

theorem lexLe_total : ∀ (a b : List Char), lexLe a b = true ∨ lexLe b a = true
  | [], _ => Or.inl rfl
  | _ :: _, [] => Or.inr rfl
  | a :: as, b :: bs => by
    rcases Nat.lt_trichotomy a.toNat b.toNat with h | h | h
    · left; simp [lexLe, h]
    · have h1 : ¬ a.toNat < b.toNat := by omega
      have h2 : ¬ b.toNat < a.toNat := by omega
      rcases lexLe_total as bs with hr | hr
      · left; simp [lexLe, h1, h2, hr]
      · right; simp [lexLe, h1, h2, hr]
    · right; simp [lexLe, h]

theorem lexLe_trans : ∀ (a b c : List Char),
    lexLe a b = true → lexLe b c = true → lexLe a c = true
  | [], _, _, _, _ => rfl
  | _ :: _, [], _, h, _ => by simp [lexLe] at h
  | _ :: _, _ :: _, [], _, h => by simp [lexLe] at h
  | a :: as, b :: bs, c :: cs, h1, h2 => by
    simp only [lexLe] at h1 h2 ⊢
    by_cases hab : a.toNat < b.toNat <;> by_cases hbc : b.toNat < c.toNat
    · have : a.toNat < c.toNat := by omega
      simp [this]
    · simp only [if_neg hbc] at h2
      by_cases hcb : c.toNat < b.toNat
      · simp [hcb] at h2
      · have hbc2 : b.toNat = c.toNat := by omega
        by_cases hac : a.toNat < c.toNat
        · simp [hac]
        · omega
    · simp only [if_neg hab] at h1
      by_cases hba : b.toNat < a.toNat
      · simp [hba] at h1
      · have hab2 : a.toNat = b.toNat := by omega
        by_cases hac : a.toNat < c.toNat
        · simp [hac]
        · omega
    · simp only [if_neg hab] at h1
      simp only [if_neg hbc] at h2
      by_cases hba : b.toNat < a.toNat
      · simp [hba] at h1
      · by_cases hcb : c.toNat < b.toNat
        · simp [hcb] at h2
        · simp only [if_neg hba] at h1
          simp only [if_neg hcb] at h2
          have hac : ¬ a.toNat < c.toNat := by omega
          have hca : ¬ c.toNat < a.toNat := by omega
          simp [hac, hca, lexLe_trans as bs cs h1 h2]

def strLeRel : String → String → Prop := fun a b => strLe a b = true

instance : DecidableRel strLeRel := fun a b => by
  unfold strLeRel
  infer_instance

instance : IsTotal String strLeRel := ⟨fun a b => lexLe_total a.data b.data⟩

instance : IsTrans String strLeRel :=
  ⟨fun a b c h1 h2 => lexLe_trans a.data b.data c.data h1 h2⟩

theorem pySorted_perm (l : List String) : List.Perm (pySorted l) l :=
  List.perm_insertionSort _ l

theorem pySorted_sorted (l : List String) :
    (pySorted l).Pairwise (fun a b => strLe a b = true) := by
  have h := List.sorted_insertionSort (r := strLeRel) l
  exact h

theorem mem_pySorted (l : List String) (a : String) : a ∈ pySorted l ↔ a ∈ l :=
  (pySorted_perm l).mem_iff

theorem nodup_pySorted (l : List String) (h : l.Nodup) : (pySorted l).Nodup :=
  (pySorted_perm l).nodup_iff.mpr h

/-! ## `enumFrom` lemmas -/

/-- The IDs `start, start+1, ..., start+count-1`. -/
def idRange (start : Int) : Nat → List Int
  | 0 => []
  | m + 1 => start :: idRange (start + 1) m

theorem enumFrom_fst (n : Int) (l : List String) : (enumFrom n l).map Prod.fst = l := by
  induction l generalizing n with
  | nil => rfl
  | cons x xs ih => simp [enumFrom, ih]

theorem enumFrom_snd (n : Int) (l : List String) :
    (enumFrom n l).map Prod.snd = idRange n l.length := by
  induction l generalizing n with
  | nil => rfl
  | cons x xs ih => simp [enumFrom, idRange, ih]

theorem enumFrom_length (n : Int) (l : List String) : (enumFrom n l).length = l.length := by
  induction l generalizing n with
  | nil => rfl
  | cons x xs ih => simp [enumFrom, ih]

/-! ## Keys of the relation maps built by the record fold -/

theorem finalize_idsOfPackages {τ : Type} (st : BuildState τ) :
    (finalize st).idsOfPackages = enumFrom 1 (pySorted (st.packagesRels.map Prod.fst)) := rfl

theorem finalize_idsOfSubjects {τ : Type} (st : BuildState τ) :
    (finalize st).idsOfSubjects =
      enumFrom (1 + (st.packagesRels.length : Int))
        (pySorted (st.subjectsRels.map Prod.fst)) := rfl

theorem mem_keys_packagesRels_subjFold {τ : Type} (pkg doi : String) :
    ∀ (subjects : List String) (st : BuildState τ) (name : String),
      (name ∈ ((subjects.foldl (subjStep pkg doi) st).packagesRels.map Prod.fst) ↔
        name ∈ (st.packagesRels.map Prod.fst) ∨ (subjects ≠ [] ∧ name = pkg))
  | [], st, name => by simp
  | x :: rest, st, name => by
    rw [List.foldl_cons, mem_keys_packagesRels_subjFold pkg doi rest _ name]
    have h : (subjStep pkg doi st x).packagesRels = alistInsert st.packagesRels pkg x := rfl
    rw [h, alistInsert, mem_keys_upd]
    have hne : x :: rest ≠ ([] : List String) := by simp
    constructor
    · rintro ((h1 | h1) | h1)
      · exact Or.inl h1
      · exact Or.inr ⟨hne, h1⟩
      · exact Or.inr ⟨hne, h1.2⟩
    · rintro (h1 | h1)
      · exact Or.inl (Or.inl h1)
      · exact Or.inl (Or.inr h1.2)

theorem mem_keys_subjectsRels_subjFold {τ : Type} (pkg doi : String) :
    ∀ (subjects : List String) (st : BuildState τ) (name : String),
      (name ∈ ((subjects.foldl (subjStep pkg doi) st).subjectsRels.map Prod.fst) ↔
        name ∈ (st.subjectsRels.map Prod.fst) ∨ name ∈ subjects)
  | [], st, name => by simp
  | x :: rest, st, name => by
    rw [List.foldl_cons, mem_keys_subjectsRels_subjFold pkg doi rest _ name]
    have h : (subjStep pkg doi st x).subjectsRels = alistInsert st.subjectsRels x pkg := rfl
    rw [h, alistInsert, mem_keys_upd]
    simp only [List.mem_cons]
    tauto

theorem packagesRels_buildStepCore_eq {τ : Type} (st : BuildState τ) (title : τ)
    (pkg : String) (subjects : List String) (doi : String) :
    (buildStepCore st title pkg subjects doi).packagesRels =
      ((subjects.foldl (subjStep pkg doi)
        { st with
          packagesBooks := alistAppend st.packagesBooks pkg doi
          booksPackages := alistSet st.booksPackages doi pkg })).packagesRels := rfl

theorem mem_keys_packagesRels_buildStep {τ : Type} (st : BuildState τ) (r : RawRecordG τ)
    (name : String) :
    name ∈ ((buildStep st r).packagesRels.map Prod.fst) ↔
      name ∈ (st.packagesRels.map Prod.fst) ∨ name = r.package := by
  rw [buildStep, packagesRels_buildStepCore_eq, mem_keys_packagesRels_subjFold]
  simp [processSubjects_ne_nil r.subjects]

theorem mem_keys_subjectsRels_buildStep {τ : Type} (st : BuildState τ) (r : RawRecordG τ)
    (name : String) :
    name ∈ ((buildStep st r).subjectsRels.map Prod.fst) ↔
      name ∈ (st.subjectsRels.map Prod.fst) ∨ name ∈ processSubjects r.subjects := by
  rw [buildStep]
  have h : (buildStepCore st r.title r.package (processSubjects r.subjects) r.doi).subjectsRels =
      (((processSubjects r.subjects).foldl (subjStep r.package r.doi)
        { st with
          packagesBooks := alistAppend st.packagesBooks r.package r.doi
          booksPackages := alistSet st.booksPackages r.doi r.package })).subjectsRels := rfl
  rw [h, mem_keys_subjectsRels_subjFold]

theorem mem_keys_packagesRels_foldl {τ : Type} :
    ∀ (recs : List (RawRecordG τ)) (st : BuildState τ) (name : String),
      (name ∈ (((recs.foldl buildStep st)).packagesRels.map Prod.fst) ↔
        name ∈ (st.packagesRels.map Prod.fst) ∨ name ∈ recs.map RawRecordG.package)
  | [], st, name => by simp
  | r :: rest, st, name => by
    rw [List.foldl_cons, mem_keys_packagesRels_foldl rest _ name,
      mem_keys_packagesRels_buildStep]
    simp only [List.map_cons, List.mem_cons]
    tauto

theorem mem_keys_subjectsRels_foldl {τ : Type} :
    ∀ (recs : List (RawRecordG τ)) (st : BuildState τ) (name : String),
      (name ∈ (((recs.foldl buildStep st)).subjectsRels.map Prod.fst) ↔
        name ∈ (st.subjectsRels.map Prod.fst) ∨
          ∃ r, r ∈ recs ∧ name ∈ processSubjects r.subjects)
  | [], st, name => by simp
  | r :: rest, st, name => by
    rw [List.foldl_cons, mem_keys_subjectsRels_foldl rest _ name,
      mem_keys_subjectsRels_buildStep]
    simp only [List.mem_cons]
    constructor
    · rintro ((h1 | h1) | ⟨r2, hr2, hn⟩)
      · exact Or.inl h1
      · exact Or.inr ⟨r, Or.inl rfl, h1⟩
      · exact Or.inr ⟨r2, Or.inr hr2, hn⟩
    · rintro (h1 | ⟨r2, hr2 | hr2, hn⟩)
      · exact Or.inl (Or.inl h1)
      · exact Or.inl (Or.inr (hr2 ▸ hn))
      · exact Or.inr ⟨r2, hr2, hn⟩

theorem nodup_keys_packagesRels_subjFold {τ : Type} (pkg doi : String) :
    ∀ (subjects : List String) (st : BuildState τ),
      ((st.packagesRels.map Prod.fst).Nodup) →
      (((subjects.foldl (subjStep pkg doi) st).packagesRels.map Prod.fst).Nodup)
  | [], st, h => h
  | x :: rest, st, h => by
    rw [List.foldl_cons]
    exact nodup_keys_packagesRels_subjFold pkg doi rest _ (nodup_keys_upd _ _ _ _ h)

theorem nodup_keys_subjectsRels_subjFold {τ : Type} (pkg doi : String) :
    ∀ (subjects : List String) (st : BuildState τ),
      ((st.subjectsRels.map Prod.fst).Nodup) →
      (((subjects.foldl (subjStep pkg doi) st).subjectsRels.map Prod.fst).Nodup)
  | [], st, h => h
  | x :: rest, st, h => by
    rw [List.foldl_cons]
    exact nodup_keys_subjectsRels_subjFold pkg doi rest _ (nodup_keys_upd _ _ _ _ h)

theorem nodup_keys_packagesRels_foldl {τ : Type} :
    ∀ (recs : List (RawRecordG τ)) (st : BuildState τ),
      ((st.packagesRels.map Prod.fst).Nodup) →
      ((((recs.foldl buildStep st)).packagesRels.map Prod.fst).Nodup)
  | [], st, h => h
  | r :: rest, st, h => by
    rw [List.foldl_cons]
    exact nodup_keys_packagesRels_foldl rest _
      (by
        rw [buildStep, packagesRels_buildStepCore_eq]
        exact nodup_keys_packagesRels_subjFold _ _ _ _ h)

theorem nodup_keys_subjectsRels_foldl {τ : Type} :
    ∀ (recs : List (RawRecordG τ)) (st : BuildState τ),
      ((st.subjectsRels.map Prod.fst).Nodup) →
      ((((recs.foldl buildStep st)).subjectsRels.map Prod.fst).Nodup)
  | [], st, h => h
  | r :: rest, st, h => by
    rw [List.foldl_cons]
    refine nodup_keys_subjectsRels_foldl rest _ ?_
    have heq : (buildStep st r).subjectsRels =
        (((processSubjects r.subjects).foldl (subjStep r.package r.doi)
          { st with
            packagesBooks := alistAppend st.packagesBooks r.package r.doi
            booksPackages := alistSet st.booksPackages r.doi r.package })).subjectsRels := rfl
    rw [heq]
    exact nodup_keys_subjectsRels_subjFold _ _ _ _ h

theorem setup_globals_eq (recs : List RawRecord) :
    setup_globals recs = finalize (recs.foldl buildStep (emptyBuild String)) := rfl

/-- **C3**: for every raw record set, indexing assigns package IDs `1..P` to
the distinct package names in lexicographically sorted order (`strLe` is the
code-point order Python's `sorted` uses on strings) and subject IDs
`P+1..P+S` to the distinct (processed) subject names in sorted order; and,
the build being a pure function of the records, re-running it on an unchanged
record set yields the identical assignment. -/
theorem c3_sorted_id_assignment (recs : List RawRecord) :
    (setup_globals recs).idsOfPackages.map Prod.snd =
        idRange 1 (setup_globals recs).idsOfPackages.length
    ∧ ((setup_globals recs).idsOfPackages.map Prod.fst).Pairwise
        (fun a b => strLe a b = true)
    ∧ ((setup_globals recs).idsOfPackages.map Prod.fst).Nodup
    ∧ (∀ name, name ∈ (setup_globals recs).idsOfPackages.map Prod.fst ↔
        name ∈ recs.map RawRecordG.package)
    ∧ (setup_globals recs).idsOfSubjects.map Prod.snd =
        idRange (1 + ((setup_globals recs).idsOfPackages.length : Int))
          (setup_globals recs).idsOfSubjects.length
    ∧ ((setup_globals recs).idsOfSubjects.map Prod.fst).Pairwise
        (fun a b => strLe a b = true)
    ∧ ((setup_globals recs).idsOfSubjects.map Prod.fst).Nodup
    ∧ (∀ name, name ∈ (setup_globals recs).idsOfSubjects.map Prod.fst ↔
        ∃ r, r ∈ recs ∧ name ∈ processSubjects r.subjects)
    ∧ setup_globals recs = setup_globals recs := by
  have hsetup : setup_globals recs = finalize (recs.foldl buildStep (emptyBuild String)) := rfl
  set st := recs.foldl buildStep (emptyBuild String) with hst
  have hP : (setup_globals recs).idsOfPackages =
      enumFrom 1 (pySorted (st.packagesRels.map Prod.fst)) := by
    rw [hsetup, finalize_idsOfPackages]
  have hS : (setup_globals recs).idsOfSubjects =
      enumFrom (1 + (st.packagesRels.length : Int))
        (pySorted (st.subjectsRels.map Prod.fst)) := by
    rw [hsetup, finalize_idsOfSubjects]
  have hlenP : (setup_globals recs).idsOfPackages.length = st.packagesRels.length := by
    rw [hP, enumFrom_length, (pySorted_perm _).length_eq, List.length_map]
  refine ⟨?_, ?_, ?_, ?_, ?_, ?_, ?_, ?_, rfl⟩
  · rw [hP, enumFrom_snd, enumFrom_length]
  · rw [hP, enumFrom_fst]
    exact pySorted_sorted _
  · rw [hP, enumFrom_fst]
    refine nodup_pySorted _ (nodup_keys_packagesRels_foldl recs _ ?_)
    simp [emptyBuild]
  · intro name
    rw [hP, enumFrom_fst, mem_pySorted]
    have h := mem_keys_packagesRels_foldl recs (emptyBuild String) name
    simpa [emptyBuild] using h
  · rw [hS, enumFrom_snd, enumFrom_length, hlenP]
  · rw [hS, enumFrom_fst]
    exact pySorted_sorted _
  · rw [hS, enumFrom_fst]
    refine nodup_pySorted _ (nodup_keys_subjectsRels_foldl recs _ ?_)
    simp [emptyBuild]
  · intro name
    rw [hS, enumFrom_fst, mem_pySorted]
    have h := mem_keys_subjectsRels_foldl recs (emptyBuild String) name
    simpa [emptyBuild] using h

/-! ## Truncation and canonical subject keys (claim C7) -/

theorem length_mk (l : List Char) : (String.mk l).length = l.length := rfl

theorem splitAnyAux_no_sep (p : Char → Bool) :
    ∀ (l : List Char), (∀ c ∈ l, p c = false) → splitAnyAux p l = [l]
  | [], _ => rfl
  | c :: rest, h => by
    have hrest : splitAnyAux p rest = [rest] :=
      splitAnyAux_no_sep p rest (fun d hd => h d (List.mem_cons_of_mem c hd))
    have hc : p c = false := h c (List.mem_cons_self c rest)
    simp [splitAnyAux, hrest, hc]

theorem pySplit_no_semicolon (s : String) (h : ';' ∉ s.data) : pySplit s ';' = [s] := by
  unfold pySplit splitAny
  rw [splitAnyAux_no_sep]
  · obtain ⟨d⟩ := s
    rfl
  · intro c hc
    simp only [beq_eq_false_iff_ne, ne_eq]
    intro he
    exact h (he ▸ hc)

theorem processSubjects_single (s : String) (h : ';' ∉ s.data) :
    processSubjects s = [truncateName (pyStrip s)] := by
  unfold processSubjects
  rw [pySplit_no_semicolon s h]
  rfl

theorem buildStep_congr {τ : Type} (st : BuildState τ) (r1 r2 : RawRecordG τ)
    (ht : r1.title = r2.title) (hp : r1.package = r2.package) (hd : r1.doi = r2.doi)
    (hs : processSubjects r1.subjects = processSubjects r2.subjects) :
    buildStep st r1 = buildStep st r2 := by
  rw [buildStep, buildStep, ht, hp, hd, hs]

theorem setup_globals_subjects_congr (pre post : List RawRecord) (t p s1 s2 d : String)
    (hs : processSubjects s1 = processSubjects s2) :
    setup_globals (pre ++ ⟨t, p, s1, d⟩ :: post) =
      setup_globals (pre ++ ⟨t, p, s2, d⟩ :: post) := by
  rw [setup_globals_eq, setup_globals_eq, List.foldl_append, List.foldl_append,
    List.foldl_cons, List.foldl_cons,
    buildStep_congr (pre.foldl buildStep (emptyBuild String))
      ⟨t, p, s1, d⟩ ⟨t, p, s2, d⟩ rfl rfl rfl hs]

/-- **C7**: (1) a (stripped) subject name of display length above `LONGEST`
is truncated to its first `LONGEST-3` characters plus the 3-character
ellipsis, for a display length of at most `LONGEST`; (2) the whole index
depends on a record's raw subjects field only through the processed
(split + stripped + truncated) tokens; (3) hence two distinct raw subject
names with the same truncated form produce the very same index — they are one
topic everywhere downstream. -/
theorem c7_truncate_before_indexing :
    (∀ s : String, LONGEST < s.length →
      (truncateName s).length ≤ LONGEST
        ∧ truncateName s = pyTake s (LONGEST - 3) ++ "...")
    ∧ (∀ (pre post : List RawRecord) (t p s1 s2 d : String),
        processSubjects s1 = processSubjects s2 →
        setup_globals (pre ++ ⟨t, p, s1, d⟩ :: post) =
          setup_globals (pre ++ ⟨t, p, s2, d⟩ :: post))
    ∧ (∀ (pre post : List RawRecord) (t p a b d : String),
        ';' ∉ a.data → ';' ∉ b.data →
        truncateName (pyStrip a) = truncateName (pyStrip b) →
        setup_globals (pre ++ ⟨t, p, a, d⟩ :: post) =
          setup_globals (pre ++ ⟨t, p, b, d⟩ :: post)) := by
  refine ⟨?_, setup_globals_subjects_congr, ?_⟩
  · intro s hlen
    have hnot : ¬ s.length < LONGEST := Nat.not_lt.mpr (Nat.le_of_lt hlen)
    refine ⟨?_, by rw [truncateName, if_neg hnot]⟩
    rw [truncateName, if_neg hnot, String.length_append]
    have h1 : (pyTake s (LONGEST - 3)).length = min (LONGEST - 3) s.length := by
      rw [pyTake, length_mk, List.length_take]
      rfl
    have h2 : ("..." : String).length = 3 := rfl
    rw [h1, h2]
    have h3 : min (LONGEST - 3) s.length ≤ LONGEST - 3 := Nat.min_le_left _ _
    have h4 : 3 ≤ LONGEST := by decide
    omega
  · intro pre post t p a b d ha hb htr
    exact setup_globals_subjects_congr pre post t p a b d
      (by rw [processSubjects_single a ha, processSubjects_single b hb, htr])

def longA : String := "aaaaaaaaaaaaaaaaaaaaaaaaaaaaaaaaaaaaaaaaaaaaaaaaaaa"

def longB : String := "aaaaaaaaaaaaaaaaaaaaaaaaaaaaaaaaaaaaaaaaaaaaaaaaaaaa"

/-- Witness for C7: `longA` (51 `a`s) and `longB` (52 `a`s) are distinct but
truncate alike; the theorem applied to them gives the truncation bound and an
identical index for either spelling. -/
theorem c7_truncate_before_indexing_witness :
    ((truncateName longA).length ≤ LONGEST
      ∧ truncateName longA = pyTake longA (LONGEST - 3) ++ "...")
    ∧ longA ≠ longB
    ∧ setup_globals ([] ++ ⟨"T", "P", longA, "d"⟩ :: []) =
        setup_globals ([] ++ ⟨"T", "P", longB, "d"⟩ :: []) := by
  refine ⟨c7_truncate_before_indexing.1 longA (by decide), by decide, ?_⟩
  exact c7_truncate_before_indexing.2.2 [] [] "T" "P" longA longB "d"
    (by decide) (by decide) (by decide)

/-! ## What an empty subjects field builds (claim C4) -/

theorem processSubjects_empty : processSubjects "" = [""] := rfl

theorem subset_insertFun {β : Type} [DecidableEq β] (v : β) (vs : List β) :
    vs ⊆ (if v ∈ vs then vs else vs ++ [v]) := by
  by_cases h : v ∈ vs
  · simp [h]
  · simp only [if_neg h]
    exact List.subset_append_left _ _

theorem subjStep_mono {τ : Type} (pkg doi s : String) (st : BuildState τ) (k x : String) :
    (x ∈ alistGet st.subjectsBooks k [] →
      x ∈ alistGet (subjStep pkg doi st s).subjectsBooks k [])
    ∧ (x ∈ alistGet st.packagesRels k [] →
      x ∈ alistGet (subjStep pkg doi st s).packagesRels k [])
    ∧ (x ∈ alistGet st.subjectsRels k [] →
      x ∈ alistGet (subjStep pkg doi st s).subjectsRels k []) := by
  refine ⟨fun hx => ?_, fun hx => ?_, fun hx => ?_⟩
  · exact alistGet_upd_mono _ (fun vs => List.subset_append_left _ _) _ _ _ _ hx
  · exact alistGet_upd_mono _ (fun vs => subset_insertFun _ _) _ _ _ _ hx
  · exact alistGet_upd_mono _ (fun vs => subset_insertFun _ _) _ _ _ _ hx

theorem subjFold_mono {τ : Type} (pkg doi : String) :
    ∀ (subjects : List String) (st : BuildState τ) (k x : String),
      (x ∈ alistGet st.subjectsBooks k [] →
        x ∈ alistGet ((subjects.foldl (subjStep pkg doi) st)).subjectsBooks k [])
      ∧ (x ∈ alistGet st.packagesRels k [] →
        x ∈ alistGet ((subjects.foldl (subjStep pkg doi) st)).packagesRels k [])
      ∧ (x ∈ alistGet st.subjectsRels k [] →
        x ∈ alistGet ((subjects.foldl (subjStep pkg doi) st)).subjectsRels k [])
  | [], st, k, x => ⟨id, id, id⟩
  | s :: rest, st, k, x => by
    rw [List.foldl_cons]
    have h1 := subjStep_mono pkg doi s st k x
    have h2 := subjFold_mono pkg doi rest (subjStep pkg doi st s) k x
    exact ⟨fun hx => h2.1 (h1.1 hx), fun hx => h2.2.1 (h1.2.1 hx),
      fun hx => h2.2.2 (h1.2.2 hx)⟩

theorem buildStep_mono {τ : Type} (st : BuildState τ) (r : RawRecordG τ) (k x : String) :
    (x ∈ alistGet st.subjectsBooks k [] →
      x ∈ alistGet (buildStep st r).subjectsBooks k [])
    ∧ (x ∈ alistGet st.packagesRels k [] →
      x ∈ alistGet (buildStep st r).packagesRels k [])
    ∧ (x ∈ alistGet st.subjectsRels k [] →
      x ∈ alistGet (buildStep st r).subjectsRels k []) := by
  have h := subjFold_mono r.package r.doi (processSubjects r.subjects)
    { st with
      packagesBooks := alistAppend st.packagesBooks r.package r.doi
      booksPackages := alistSet st.booksPackages r.doi r.package } k x
  exact h

theorem foldl_buildStep_mono {τ : Type} :
    ∀ (recs : List (RawRecordG τ)) (st : BuildState τ) (k x : String),
      (x ∈ alistGet st.subjectsBooks k [] →
        x ∈ alistGet ((recs.foldl buildStep st)).subjectsBooks k [])
      ∧ (x ∈ alistGet st.packagesRels k [] →
        x ∈ alistGet ((recs.foldl buildStep st)).packagesRels k [])
      ∧ (x ∈ alistGet st.subjectsRels k [] →
        x ∈ alistGet ((recs.foldl buildStep st)).subjectsRels k [])
  | [], st, k, x => ⟨id, id, id⟩
  | r :: rest, st, k, x => by
    rw [List.foldl_cons]
    have h1 := buildStep_mono st r k x
    have h2 := foldl_buildStep_mono rest (buildStep st r) k x
    exact ⟨fun hx => h2.1 (h1.1 hx), fun hx => h2.2.1 (h1.2.1 hx),
      fun hx => h2.2.2 (h1.2.2 hx)⟩

theorem subjFold_adds {τ : Type} (pkg doi : String) :
    ∀ (subjects : List String) (st : BuildState τ) (subj : String), subj ∈ subjects →
      doi ∈ alistGet ((subjects.foldl (subjStep pkg doi) st)).subjectsBooks subj []
      ∧ subj ∈ alistGet ((subjects.foldl (subjStep pkg doi) st)).packagesRels pkg []
      ∧ pkg ∈ alistGet ((subjects.foldl (subjStep pkg doi) st)).subjectsRels subj []
  | [], _, _, h => absurd h (List.not_mem_nil _)
  | s :: rest, st, subj, h => by
    rw [List.foldl_cons]
    rcases List.mem_cons.mp h with heq | hmem
    · subst heq
      have hmono := subjFold_mono pkg doi rest (subjStep pkg doi st subj)
      refine ⟨(hmono subj doi).1 ?_, (hmono pkg subj).2.1 ?_, (hmono subj pkg).2.2 ?_⟩
      · have : alistGet (subjStep pkg doi st subj).subjectsBooks subj [] =
            alistGet st.subjectsBooks subj [] ++ [doi] := alistGet_upd_self _ _ _ _ _
        rw [this]
        exact List.mem_append_right _ (List.mem_singleton.mpr rfl)
      · have : alistGet (subjStep pkg doi st subj).packagesRels pkg [] =
            (if subj ∈ alistGet st.packagesRels pkg [] then alistGet st.packagesRels pkg []
              else alistGet st.packagesRels pkg [] ++ [subj]) := alistGet_upd_self _ _ _ _ _
        rw [this]
        by_cases hin : subj ∈ alistGet st.packagesRels pkg []
        · simp [hin]
        · simp only [if_neg hin]
          exact List.mem_append_right _ (List.mem_singleton.mpr rfl)
      · have : alistGet (subjStep pkg doi st subj).subjectsRels subj [] =
            (if pkg ∈ alistGet st.subjectsRels subj [] then alistGet st.subjectsRels subj []
              else alistGet st.subjectsRels subj [] ++ [pkg]) := alistGet_upd_self _ _ _ _ _
        rw [this]
        by_cases hin : pkg ∈ alistGet st.subjectsRels subj []
        · simp [hin]
        · simp only [if_neg hin]
          exact List.mem_append_right _ (List.mem_singleton.mpr rfl)
    · exact subjFold_adds pkg doi rest _ subj hmem

theorem buildStep_adds {τ : Type} (st : BuildState τ) (r : RawRecordG τ) (subj : String)
    (h : subj ∈ processSubjects r.subjects) :
    r.doi ∈ alistGet (buildStep st r).subjectsBooks subj []
    ∧ subj ∈ alistGet (buildStep st r).packagesRels r.package []
    ∧ r.package ∈ alistGet (buildStep st r).subjectsRels subj [] :=
  subjFold_adds r.package r.doi (processSubjects r.subjects) _ subj h

theorem foldl_buildStep_adds {τ : Type} (recs : List (RawRecordG τ)) (st : BuildState τ)
    (r : RawRecordG τ) (hr : r ∈ recs) (subj : String)
    (h : subj ∈ processSubjects r.subjects) :
    r.doi ∈ alistGet ((recs.foldl buildStep st)).subjectsBooks subj []
    ∧ subj ∈ alistGet ((recs.foldl buildStep st)).packagesRels r.package []
    ∧ r.package ∈ alistGet ((recs.foldl buildStep st)).subjectsRels subj [] := by
  obtain ⟨l1, l2, rfl⟩ := List.append_of_mem hr
  rw [List.foldl_append, List.foldl_cons]
  have hadds := buildStep_adds (l1.foldl buildStep st) r subj h
  have hmono1 := foldl_buildStep_mono l2 (buildStep (l1.foldl buildStep st) r) subj r.doi
  have hmono2 := foldl_buildStep_mono l2 (buildStep (l1.foldl buildStep st) r) r.package subj
  have hmono3 := foldl_buildStep_mono l2 (buildStep (l1.foldl buildStep st) r) subj r.package
  exact ⟨hmono1.1 hadds.1, hmono2.2.1 hadds.2.1, hmono3.2.2 hadds.2.2⟩

theorem finalize_subjectsBooks {τ : Type} (st : BuildState τ) :
    (finalize st).subjectsBooks = st.subjectsBooks := rfl

theorem finalize_packagesRels {τ : Type} (st : BuildState τ) :
    (finalize st).packagesRels = st.packagesRels := rfl

theorem finalize_subjectsRels {τ : Type} (st : BuildState τ) :
    (finalize st).subjectsRels = st.subjectsRels := rfl

/-- **C4, corrected**: a record whose subjects field is the empty string does
NOT leave the subject maps untouched — `"".split(';')` yields `[""]`, so the
record creates a subject whose name is the empty string: the book joins that
subject's book list, the package relates to the empty-named subject and vice
versa, and the empty name receives a subject ID. -/
theorem c4_empty_subjects_amended (recs : List RawRecord) (r : RawRecord)
    (hr : r ∈ recs) (hs : r.subjects = "") :
    r.doi ∈ alistGet (setup_globals recs).subjectsBooks "" []
    ∧ "" ∈ alistGet (setup_globals recs).packagesRels r.package []
    ∧ r.package ∈ alistGet (setup_globals recs).subjectsRels "" []
    ∧ "" ∈ (setup_globals recs).idsOfSubjects.map Prod.fst := by
  have hps : ("" : String) ∈ processSubjects r.subjects := by
    rw [hs, processSubjects_empty]
    exact List.mem_singleton.mpr rfl
  have hadds := foldl_buildStep_adds recs (emptyBuild String) r hr "" hps
  rw [setup_globals_eq, finalize_subjectsBooks, finalize_packagesRels, finalize_subjectsRels,
    finalize_idsOfSubjects, enumFrom_fst]
  refine ⟨hadds.1, hadds.2.1, hadds.2.2, ?_⟩
  rw [mem_pySorted]
  exact (mem_keys_subjectsRels_foldl recs (emptyBuild String) "").mpr
    (Or.inr ⟨r, hr, hps⟩)

/-- Counterexample to **C4** as stated: one record with an empty subjects
field produces a subject entry (named `""`, with subject ID 2), a subject
book-list membership, and a package↔subject relation. -/
theorem c4_empty_subjects_counterexample :
    (setup_globals [⟨"Book A", "Pkg1", "", "10.1/aaa"⟩]).idsOfSubjects = [("", 2)]
    ∧ alistGet (setup_globals [⟨"Book A", "Pkg1", "", "10.1/aaa"⟩]).subjectsBooks "" []
        = ["10.1/aaa"]
    ∧ (setup_globals [⟨"Book A", "Pkg1", "", "10.1/aaa"⟩]).packagesRels = [("Pkg1", [""])]
    ∧ (setup_globals [⟨"Book A", "Pkg1", "", "10.1/aaa"⟩]).subjectsRels = [("", ["Pkg1"])] := by
  decide

/-- Witness for the amended C4 at a concrete record. -/
theorem c4_empty_subjects_amended_witness :
    "10.1/bbb" ∈ alistGet
        (setup_globals [⟨"Book B", "Pkg9", "", "10.1/bbb"⟩]).subjectsBooks "" []
    ∧ "" ∈ alistGet (setup_globals [⟨"Book B", "Pkg9", "", "10.1/bbb"⟩]).packagesRels "Pkg9" []
    ∧ "Pkg9" ∈ alistGet (setup_globals [⟨"Book B", "Pkg9", "", "10.1/bbb"⟩]).subjectsRels "" []
    ∧ "" ∈ (setup_globals [⟨"Book B", "Pkg9", "", "10.1/bbb"⟩]).idsOfSubjects.map Prod.fst :=
  c4_empty_subjects_amended [⟨"Book B", "Pkg9", "", "10.1/bbb"⟩] ⟨"Book B", "Pkg9", "", "10.1/bbb"⟩
    (List.mem_singleton.mpr rfl) rfl

/-! ## Download-loop lemmas -/

theorem fetchCountE_append (e1 e2 : List DlEvent) (doi : String) :
    fetchCountE (e1 ++ e2) doi = fetchCountE e1 doi + fetchCountE e2 doi := by
  simp [fetchCountE, List.filter_append]

theorem writeCountE_append (e1 e2 : List DlEvent) (doi : String) :
    writeCountE (e1 ++ e2) doi = writeCountE e1 doi + writeCountE e2 doi := by
  simp [writeCountE, List.filter_append]

theorem fetchCountE_fetch (d doi : String) :
    fetchCountE [.fetch d] doi = if d = doi then 1 else 0 := by
  by_cases h : d = doi <;> simp [fetchCountE, h]

theorem fetchCountE_write (p : List String) (d doi : String) :
    fetchCountE [.write p d] doi = 0 := by
  simp [fetchCountE]

theorem writeCountE_fetch (d doi : String) : writeCountE [.fetch d] doi = 0 := by
  simp [writeCountE]

theorem writeCountE_write (p : List String) (d doi : String) :
    writeCountE [.write p d] doi = if d = doi then 1 else 0 := by
  by_cases h : d = doi <;> simp [writeCountE, h]

/-- Case analysis of one `_download_book` call that returned normally. -/
theorem _download_book_ok_spec (idx : Index) (env : Env) (doi : String) (dest : List String)
    (ext group : String) (st st1 : DlState)
    (h : _download_book idx env doi dest ext group st = .ok st1) :
    (doi ∈ st.already ∧ st1 = st)
    ∨ (doi ∉ st.already ∧ env.status doi = 200 ∧ ∃ dirs1,
        mkdirExistOk st.dirs (bookFullPath idx dest group ext doi).dropLast = .ok dirs1
        ∧ st1 = ⟨dirs1, st.already ++ [doi],
            st.events ++ [.fetch doi, .write (bookFullPath idx dest group ext doi) doi]⟩)
    ∨ (doi ∉ st.already ∧ env.status doi ≠ 200 ∧ ∃ dirs1,
        mkdirExistOk st.dirs (bookFullPath idx dest group ext doi).dropLast = .ok dirs1
        ∧ st1 = ⟨dirs1, st.already, st.events ++ [.fetch doi]⟩) := by
  by_cases hmem : doi ∈ st.already
  · rw [_download_book, if_pos hmem] at h
    cases h
    exact Or.inl ⟨hmem, rfl⟩
  · rw [_download_book, if_neg hmem] at h
    cases hmk : mkdirExistOk st.dirs (bookFullPath idx dest group ext doi).dropLast with
    | error e => rw [hmk] at h; cases h
    | ok dirs1 =>
      rw [hmk] at h
      dsimp only at h
      by_cases hs : env.status doi = 200
      · rw [if_pos hs] at h
        cases h
        exact Or.inr (Or.inl ⟨hmem, hs, dirs1, rfl, rfl⟩)
      · rw [if_neg hs] at h
        cases h
        exact Or.inr (Or.inr ⟨hmem, hs, dirs1, rfl, rfl⟩)

/-- A book whose parent directory cannot be made raises out of
`_download_book` with the state it had on entry. -/
theorem _download_book_mkdir_error (idx : Index) (env : Env) (doi : String)
    (dest : List String) (ext group : String) (st : DlState) (e : FsError)
    (hmem : doi ∉ st.already)
    (hmk : mkdirExistOk st.dirs (bookFullPath idx dest group ext doi).dropLast = .error e) :
    _download_book idx env doi dest ext group st = .error (e, st) := by
  rw [_download_book, if_neg hmem, hmk]

theorem dlBookList_append (idx : Index) (env : Env) (dest : List String) (ext : String)
    (group : Bool) :
    ∀ (a b : List String) (st : DlState),
      dlBookList idx env dest ext group (a ++ b) st =
        (match dlBookList idx env dest ext group a st with
          | .error f => .error f
          | .ok st1 => dlBookList idx env dest ext group b st1)
  | [], b, st => rfl
  | doi :: rest, b, st => by
    rw [List.cons_append, dlBookList, dlBookList]
    cases _download_book idx env doi dest ext
        (if group then alistGet idx.booksPackages doi "" else "") st with
    | error f => rfl
    | ok st1 => exact dlBookList_append idx env dest ext group rest b st1

/-- The two nested loops of `download_books` walk exactly the concatenated
DOI stream. -/
theorem dlTopics_eq_dlBookList (idx : Index) (env : Env) (dest : List String) (ext : String)
    (group : Bool) :
    ∀ (topics : List Int) (st : DlState),
      dlTopics idx env dest ext group topics st =
        dlBookList idx env dest ext group (topicDois idx topics) st
  | [], st => rfl
  | t :: ts, st => by
    rw [dlTopics, topicDois, dlBookList_append]
    cases dlBookList idx env dest ext group (alistGet idx.topicsBooks t []) st with
    | error f => rfl
    | ok st1 => exact dlTopics_eq_dlBookList idx env dest ext group ts st1

theorem _download_book_grow (idx : Index) (env : Env) (doi : String) (dest : List String)
    (ext group : String) (st st1 : DlState)
    (h : _download_book idx env doi dest ext group st = .ok st1) :
    (∃ u, st1.already = st.already ++ u) ∧ (∃ v, st1.events = st.events ++ v) := by
  rcases _download_book_ok_spec idx env doi dest ext group st st1 h with
    ⟨_, rfl⟩ | ⟨_, _, dirs1, _, rfl⟩ | ⟨_, _, dirs1, _, rfl⟩
  · exact ⟨⟨[], by simp⟩, ⟨[], by simp⟩⟩
  · exact ⟨⟨[doi], rfl⟩, ⟨_, rfl⟩⟩
  · exact ⟨⟨[], by simp⟩, ⟨_, rfl⟩⟩

theorem dlBookList_grow (idx : Index) (env : Env) (dest : List String) (ext : String)
    (group : Bool) :
    ∀ (l : List String) (st st1 : DlState),
      dlBookList idx env dest ext group l st = .ok st1 →
      (∃ u, st1.already = st.already ++ u) ∧ (∃ v, st1.events = st.events ++ v)
  | [], st, st1, h => by
    cases h
    exact ⟨⟨[], by simp⟩, ⟨[], by simp⟩⟩
  | doi :: rest, st, st1, h => by
    rw [dlBookList] at h
    cases hd : _download_book idx env doi dest ext
        (if group then alistGet idx.booksPackages doi "" else "") st with
    | error f => rw [hd] at h; cases h
    | ok st2 =>
      rw [hd] at h
      obtain ⟨⟨u1, hu1⟩, v1, hv1⟩ := _download_book_grow idx env doi dest ext _ st st2 hd
      obtain ⟨⟨u2, hu2⟩, v2, hv2⟩ := dlBookList_grow idx env dest ext group rest st2 st1 h
      exact ⟨⟨u1 ++ u2, by rw [hu2, hu1, List.append_assoc]⟩,
        ⟨v1 ++ v2, by rw [hv2, hv1, List.append_assoc]⟩⟩

theorem fetchCountE_pair_self (p : List String) (doi : String) :
    fetchCountE [.fetch doi, .write p doi] doi = 1 := by
  simp [fetchCountE]

theorem fetchCountE_pair_other (p : List String) (d doi : String) (h : d ≠ doi) :
    fetchCountE [.fetch d, .write p d] doi = 0 := by
  simp [fetchCountE, h]

theorem writeCountE_pair_self (p : List String) (doi : String) :
    writeCountE [.fetch doi, .write p doi] doi = 1 := by
  simp [writeCountE]

theorem writeCountE_pair_other (p : List String) (d doi : String) (h : d ≠ doi) :
    writeCountE [.fetch d, .write p d] doi = 0 := by
  simp [writeCountE, h]

/-- The dedup invariant for a book whose fetches succeed: it has been fetched
at most once, written exactly as often as fetched, and it is in the dedup set
exactly when it has been fetched. -/
def inv200 (doi : String) (st : DlState) : Prop :=
  fetchCount st doi ≤ 1 ∧ writeCount st doi = fetchCount st doi
    ∧ (doi ∈ st.already ↔ fetchCount st doi = 1)

theorem _download_book_inv200 (idx : Index) (env : Env) (d doi : String)
    (dest : List String) (ext group : String) (st st1 : DlState)
    (hstatus : env.status doi = 200)
    (h : _download_book idx env d dest ext group st = .ok st1)
    (hinv : inv200 doi st) : inv200 doi st1 := by
  obtain ⟨h1, h2, h3⟩ := hinv
  rcases _download_book_ok_spec idx env d dest ext group st st1 h with
    ⟨_, rfl⟩ | ⟨hmem, hs, dirs1, _, rfl⟩ | ⟨hmem, hs, dirs1, _, rfl⟩
  · exact ⟨h1, h2, h3⟩
  · by_cases hd : d = doi
    · subst hd
      have hf0 : fetchCount st d = 0 := by
        rcases Nat.lt_or_ge (fetchCount st d) 1 with hlt | hge
        · omega
        · exact absurd (h3.mpr (by omega)) hmem
      refine ⟨?_, ?_, ?_⟩
      · show fetchCountE (st.events ++ [.fetch d, .write _ d]) d ≤ 1
        rw [fetchCountE_append, fetchCountE_pair_self]
        have : fetchCountE st.events d = fetchCount st d := rfl
        omega
      · show writeCountE (st.events ++ _) d = fetchCountE (st.events ++ _) d
        rw [fetchCountE_append, writeCountE_append, fetchCountE_pair_self,
          writeCountE_pair_self]
        have he : fetchCountE st.events d = fetchCount st d := rfl
        have hw : writeCountE st.events d = writeCount st d := rfl
        omega
      · show d ∈ st.already ++ [d] ↔ fetchCountE (st.events ++ _) d = 1
        rw [fetchCountE_append, fetchCountE_pair_self]
        have he : fetchCountE st.events d = fetchCount st d := rfl
        constructor
        · intro _; omega
        · intro _; exact List.mem_append_right _ (List.mem_singleton.mpr rfl)
    · refine ⟨?_, ?_, ?_⟩
      · show fetchCountE (st.events ++ [.fetch d, .write _ d]) doi ≤ 1
        rw [fetchCountE_append, fetchCountE_pair_other _ _ _ hd]
        have : fetchCountE st.events doi = fetchCount st doi := rfl
        omega
      · show writeCountE (st.events ++ _) doi = fetchCountE (st.events ++ _) doi
        rw [fetchCountE_append, writeCountE_append, fetchCountE_pair_other _ _ _ hd,
          writeCountE_pair_other _ _ _ hd]
        have he : fetchCountE st.events doi = fetchCount st doi := rfl
        have hw : writeCountE st.events doi = writeCount st doi := rfl
        omega
      · show doi ∈ st.already ++ [d] ↔ fetchCountE (st.events ++ _) doi = 1
        rw [fetchCountE_append, fetchCountE_pair_other _ _ _ hd]
        have he : fetchCountE st.events doi = fetchCount st doi := rfl
        have hmm : doi ∈ st.already ++ [d] ↔ doi ∈ st.already := by
          simp [List.mem_append, Ne.symm hd]
        rw [hmm]
        constructor
        · intro hx; have := h3.mp hx; omega
        · intro hx; exact h3.mpr (by omega)
  · have hd : d ≠ doi := by
      intro he
      exact hs (he ▸ hstatus)
    refine ⟨?_, ?_, ?_⟩
    · show fetchCountE (st.events ++ [.fetch d]) doi ≤ 1
      rw [fetchCountE_append, fetchCountE_fetch, if_neg hd]
      have : fetchCountE st.events doi = fetchCount st doi := rfl
      omega
    · show writeCountE (st.events ++ [.fetch d]) doi = fetchCountE (st.events ++ [.fetch d]) doi
      rw [fetchCountE_append, writeCountE_append, fetchCountE_fetch, if_neg hd,
        writeCountE_fetch]
      have he : fetchCountE st.events doi = fetchCount st doi := rfl
      have hw : writeCountE st.events doi = writeCount st doi := rfl
      omega
    · show doi ∈ st.already ↔ fetchCountE (st.events ++ [.fetch d]) doi = 1
      rw [fetchCountE_append, fetchCountE_fetch, if_neg hd]
      have he : fetchCountE st.events doi = fetchCount st doi := rfl
      constructor
      · intro hx; have := h3.mp hx; omega
      · intro hx; exact h3.mpr (by omega)

theorem dlBookList_inv200 (idx : Index) (env : Env) (dest : List String) (ext : String)
    (group : Bool) (doi : String) (hstatus : env.status doi = 200) :
    ∀ (l : List String) (st st1 : DlState),
      dlBookList idx env dest ext group l st = .ok st1 → inv200 doi st → inv200 doi st1
  | [], st, st1, h, hinv => by cases h; exact hinv
  | d :: rest, st, st1, h, hinv => by
    rw [dlBookList] at h
    cases hd : _download_book idx env d dest ext
        (if group then alistGet idx.booksPackages d "" else "") st with
    | error f => rw [hd] at h; cases h
    | ok st2 =>
      rw [hd] at h
      exact dlBookList_inv200 idx env dest ext group doi hstatus rest st2 st1 h
        (_download_book_inv200 idx env d doi dest ext _ st st2 hstatus hd hinv)

theorem dlBookList_mem_already (idx : Index) (env : Env) (dest : List String) (ext : String)
    (group : Bool) (doi : String) (hstatus : env.status doi = 200) :
    ∀ (l : List String) (st st1 : DlState), doi ∈ l →
      dlBookList idx env dest ext group l st = .ok st1 → inv200 doi st →
      doi ∈ st1.already
  | [], _, _, hmem, _, _ => absurd hmem (List.not_mem_nil _)
  | d :: rest, st, st1, hmem, h, hinv => by
    rw [dlBookList] at h
    cases hd : _download_book idx env d dest ext
        (if group then alistGet idx.booksPackages d "" else "") st with
    | error f => rw [hd] at h; cases h
    | ok st2 =>
      rw [hd] at h
      by_cases hdd : doi = d
      · subst hdd
        have hmem2 : doi ∈ st2.already := by
          rcases _download_book_ok_spec idx env doi dest ext _ st st2 hd with
            ⟨hin, rfl⟩ | ⟨_, _, dirs1, _, rfl⟩ | ⟨_, hs, dirs1, _, rfl⟩
          · exact hin
          · exact List.mem_append_right _ (List.mem_singleton.mpr rfl)
          · exact absurd hstatus hs
        obtain ⟨⟨u, hu⟩, _⟩ := dlBookList_grow idx env dest ext group rest st2 st1 h
        rw [hu]
        exact List.mem_append_left _ hmem2
      · have hrest : doi ∈ rest := by
          rcases List.mem_cons.mp hmem with he | hr
          · exact absurd he hdd
          · exact hr
        exact dlBookList_mem_already idx env dest ext group doi hstatus rest st2 st1 hrest h
          (_download_book_inv200 idx env d doi dest ext _ st st2 hstatus hd hinv)

theorem mem_topicDois (idx : Index) (doi : String) :
    ∀ (topics : List Int) (t : Int), t ∈ topics → doi ∈ alistGet idx.topicsBooks t [] →
      doi ∈ topicDois idx topics
  | [], _, ht, _ => absurd ht (List.not_mem_nil _)
  | t0 :: ts, t, ht, hd => by
    rw [topicDois]
    rcases List.mem_cons.mp ht with he | hr
    · exact List.mem_append_left _ (he ▸ hd)
    · exact List.mem_append_right _ (mem_topicDois idx doi ts t hr hd)

theorem inv200_init (doi : String) (dirs : List (List String)) :
    inv200 doi ⟨dirs, [], []⟩ := by
  refine ⟨?_, ?_, ?_⟩ <;> simp [fetchCount, writeCount, fetchCountE, writeCountE]

theorem countOcc_cons (d : String) (l : List String) (doi : String) :
    countOcc (d :: l) doi = (if d = doi then 1 else 0) + countOcc l doi := by
  by_cases h : d = doi <;> simp [countOcc, h, Nat.add_comm]

theorem dlBookList_status_of_already (idx : Index) (env : Env) (dest : List String)
    (ext : String) (group : Bool) :
    ∀ (l : List String) (st st1 : DlState),
      dlBookList idx env dest ext group l st = .ok st1 →
      (∀ d, d ∈ st.already → env.status d = 200) →
      ∀ d, d ∈ st1.already → env.status d = 200
  | [], st, st1, h, hpre => by cases h; exact hpre
  | d0 :: rest, st, st1, h, hpre => by
    rw [dlBookList] at h
    cases hd : _download_book idx env d0 dest ext
        (if group then alistGet idx.booksPackages d0 "" else "") st with
    | error f => rw [hd] at h; cases h
    | ok st2 =>
      rw [hd] at h
      refine dlBookList_status_of_already idx env dest ext group rest st2 st1 h ?_
      rcases _download_book_ok_spec idx env d0 dest ext _ st st2 hd with
        ⟨_, rfl⟩ | ⟨_, hs, dirs1, _, rfl⟩ | ⟨_, _, dirs1, _, rfl⟩
      · exact hpre
      · intro d hdm
        rcases List.mem_append.mp hdm with hdm | hdm
        · exact hpre d hdm
        · rw [List.mem_singleton.mp hdm]
          exact hs
      · exact hpre

theorem dlBookList_failed_refetch (idx : Index) (env : Env) (dest : List String)
    (ext : String) (group : Bool) (doi : String) (hstatus : env.status doi ≠ 200) :
    ∀ (l : List String) (st st1 : DlState),
      dlBookList idx env dest ext group l st = .ok st1 → doi ∉ st.already →
      doi ∉ st1.already ∧ fetchCount st1 doi = fetchCount st doi + countOcc l doi
  | [], st, st1, h, hmem => by
    cases h
    simp [countOcc, hmem]
  | d :: rest, st, st1, h, hmem => by
    rw [dlBookList] at h
    cases hd : _download_book idx env d dest ext
        (if group then alistGet idx.booksPackages d "" else "") st with
    | error f => rw [hd] at h; cases h
    | ok st2 =>
      rw [hd] at h
      rcases _download_book_ok_spec idx env d dest ext _ st st2 hd with
        ⟨hin, rfl⟩ | ⟨hnin, hs, dirs1, _, rfl⟩ | ⟨hnin, hs, dirs1, _, rfl⟩
      · have hdd : d ≠ doi := fun he => hmem (he ▸ hin)
        have hrec := dlBookList_failed_refetch idx env dest ext group doi hstatus rest
          _ st1 h hmem
        rw [countOcc_cons, if_neg hdd]
        exact ⟨hrec.1, by omega⟩
      · have hdd : d ≠ doi := fun he => hstatus (he ▸ hs)
        have hmem2 : doi ∉ st.already ++ [d] := by
          intro hx
          rcases List.mem_append.mp hx with hx | hx
          · exact hmem hx
          · exact hdd (List.mem_singleton.mp hx).symm
        have hrec := dlBookList_failed_refetch idx env dest ext group doi hstatus rest
          _ st1 h hmem2
        refine ⟨hrec.1, ?_⟩
        rw [hrec.2, countOcc_cons, if_neg hdd]
        have : fetchCount (⟨dirs1, st.already ++ [d],
            st.events ++ [.fetch d, .write (bookFullPath idx dest
              (if group then alistGet idx.booksPackages d "" else "") ext d) d]⟩ : DlState) doi
            = fetchCount st doi := by
          show fetchCountE (st.events ++ _) doi = fetchCountE st.events doi
          rw [fetchCountE_append, fetchCountE_pair_other _ _ _ hdd]
          omega
        omega
      · have hrec := dlBookList_failed_refetch idx env dest ext group doi hstatus rest
          _ st1 h hmem
        refine ⟨hrec.1, ?_⟩
        rw [hrec.2, countOcc_cons]
        have : fetchCount (⟨dirs1, st.already, st.events ++ [.fetch d]⟩ : DlState) doi
            = fetchCount st doi + (if d = doi then 1 else 0) := by
          show fetchCountE (st.events ++ [.fetch d]) doi = _
          rw [fetchCountE_append, fetchCountE_fetch]
          rfl
        omega

theorem dlTopics_skip_unassigned (idx : Index) (env : Env) (dest : List String)
    (ext : String) (group : Bool) (tid : Int) (post : List Int)
    (h : tid ∉ idx.topicsBooks.map Prod.fst) :
    ∀ (pre : List Int) (st : DlState),
      dlTopics idx env dest ext group (pre ++ tid :: post) st =
        dlTopics idx env dest ext group (pre ++ post) st
  | [], st => by
    rw [List.nil_append, List.nil_append, dlTopics, alistGet_not_mem _ _ _ h]
    rfl
  | t :: pre, st => by
    rw [List.cons_append, List.cons_append, dlTopics, dlTopics]
    cases dlBookList idx env dest ext group (alistGet idx.topicsBooks t []) st with
    | error f => rfl
    | ok st1 => exact dlTopics_skip_unassigned idx env dest ext group tid post h pre st1

/-! ## Claim theorems for the download orchestrator and the catalog -/

/-- **C2**: in one `download_books` call with a supported format, a book
reachable from two different requested topic IDs whose fetch succeeds
(status 200) is fetched exactly once and written exactly once: the first
encounter downloads it and puts it in the dedup set, every later encounter is
skipped.  (A book whose fetch fails is the subject of C9.) -/
theorem c2_one_fetch_one_write (idx : Index) (env : Env) (topics : List Int)
    (dest : List String) (ext : String) (group : Bool) (dirs : List (List String))
    (st : DlState) (doi : String) (t1 t2 : Int)
    (hext : ext = "pdf" ∨ ext = "epub")
    (ht1 : t1 ∈ topics) (ht2 : t2 ∈ topics) (hne : t1 ≠ t2)
    (hd1 : doi ∈ alistGet idx.topicsBooks t1 []) (hd2 : doi ∈ alistGet idx.topicsBooks t2 [])
    (hstatus : env.status doi = 200)
    (hrun : download_books idx env topics dest ext group dirs = .ok st) :
    fetchCount st doi = 1 ∧ writeCount st doi = 1 := by
  rw [download_books, if_pos hext, dlTopics_eq_dlBookList] at hrun
  have hmem := mem_topicDois idx doi topics t1 ht1 hd1
  have hinv0 := inv200_init doi dirs
  have hinv1 := dlBookList_inv200 idx env dest ext group doi hstatus _ _ _ hrun hinv0
  have hm := dlBookList_mem_already idx env dest ext group doi hstatus _ _ _ hmem hrun hinv0
  have hf : fetchCount st doi = 1 := hinv1.2.2.mp hm
  exact ⟨hf, by rw [hinv1.2.1, hf]⟩

/-- Witness for C2: the spec's worked example, topics `[1, 3]` (package
`Pkg1` and subject `Math`), book `10.1/aaa` in both. -/
theorem c2_one_fetch_one_write_witness :
    fetchCount ⟨[], ["10.1/aaa", "10.1/bbb"],
      [.fetch "10.1/aaa", .write ["Book-A.pdf"] "10.1/aaa",
       .fetch "10.1/bbb", .write ["Book-B.pdf"] "10.1/bbb"]⟩ "10.1/aaa" = 1
    ∧ writeCount ⟨[], ["10.1/aaa", "10.1/bbb"],
      [.fetch "10.1/aaa", .write ["Book-A.pdf"] "10.1/aaa",
       .fetch "10.1/bbb", .write ["Book-B.pdf"] "10.1/bbb"]⟩ "10.1/aaa" = 1 :=
  c2_one_fetch_one_write exIndex envAll200 [1, 3] [] "pdf" false [] _ "10.1/aaa" 1 3
    (Or.inl rfl) (by decide) (by decide) (by decide) (by decide) (by decide) rfl (by decide)

/-- **C9** (implicit): a DOI is added to the per-call dedup set only after a
200-status fetch (and the file write); when its fetch keeps failing, it stays
out of the set and is re-fetched at every occurrence under the requested
topics — `fetchCount` equals the number of occurrences in the walked DOI
stream. -/
theorem c9_failed_fetch_retried (idx : Index) (env : Env) (topics : List Int)
    (dest : List String) (ext : String) (group : Bool) (dirs : List (List String))
    (st : DlState) (doi : String)
    (hext : ext = "pdf" ∨ ext = "epub")
    (hrun : download_books idx env topics dest ext group dirs = .ok st) :
    (doi ∈ st.already → env.status doi = 200)
    ∧ (env.status doi ≠ 200 →
        doi ∉ st.already ∧ fetchCount st doi = countOcc (topicDois idx topics) doi) := by
  rw [download_books, if_pos hext, dlTopics_eq_dlBookList] at hrun
  constructor
  · intro hm
    exact dlBookList_status_of_already idx env dest ext group _ _ _ hrun
      (fun d hd => absurd hd (List.not_mem_nil d)) doi hm
  · intro hstatus
    have h := dlBookList_failed_refetch idx env dest ext group doi hstatus _ _ _ hrun
      (List.not_mem_nil doi)
    have h0 : fetchCount (⟨dirs, [], []⟩ : DlState) doi = 0 := rfl
    exact ⟨h.1, by omega⟩

/-- Witness for C9: with every fetch answering 404, book `10.1/aaa` under
topics `[1, 3]` is fetched twice (once per topic) and never deduplicated. -/
theorem c9_failed_fetch_retried_witness :
    ("10.1/aaa" ∉ (⟨[], [],
        [.fetch "10.1/aaa", .fetch "10.1/bbb",
         .fetch "10.1/aaa", .fetch "10.1/bbb"]⟩ : DlState).already
      ∧ fetchCount ⟨[], [],
          [.fetch "10.1/aaa", .fetch "10.1/bbb",
           .fetch "10.1/aaa", .fetch "10.1/bbb"]⟩ "10.1/aaa"
        = countOcc (topicDois exIndex [1, 3]) "10.1/aaa")
    ∧ countOcc (topicDois exIndex [1, 3]) "10.1/aaa" = 2 :=
  ⟨(c9_failed_fetch_retried exIndex envAll404 [1, 3] [] "pdf" false [] _ "10.1/aaa"
      (Or.inl rfl) (by decide)).2 (by decide),
   by decide⟩

/-- **C10** (implicit): a topic ID that was never assigned (0, negative,
above `P+S`, …) reads as the empty book list from the `defaultdict`
`TOPICS_BOOKS`; `download_books` performs no fetch, no write, and no error
for it, and the whole call is identical to the call without that ID. -/
theorem c10_unknown_topic_noop (idx : Index) (env : Env) (dest : List String)
    (ext : String) (group : Bool) (dirs : List (List String))
    (pre post : List Int) (tid : Int)
    (h : tid ∉ idx.topicsBooks.map Prod.fst) :
    download_books idx env (pre ++ tid :: post) dest ext group dirs =
      download_books idx env (pre ++ post) dest ext group dirs := by
  rw [download_books, download_books]
  by_cases hext : ext = "pdf" ∨ ext = "epub"
  · rw [if_pos hext, if_pos hext, dlTopics_skip_unassigned idx env dest ext group tid post h]
  · rw [if_neg hext, if_neg hext]

/-- Witness for C10: inserting the unassigned ID `0` between topics 1 and 3
changes nothing about the run. -/
theorem c10_unknown_topic_noop_witness :
    download_books exIndex envAll200 ([1] ++ 0 :: [3]) [] "pdf" false [] =
      download_books exIndex envAll200 ([1] ++ [3]) [] "pdf" false [] :=
  c10_unknown_topic_noop exIndex envAll200 [] "pdf" false [] [1] [3] 0 (by decide)

/-- **C6, corrected**: `_download_book` has no exception handling, so a
filesystem error creating a book's directory propagates out of the whole
loop: once a book's `mkdir` fails, the call returns that error with the state
frozen as it was before the failing book — no later book (`rest`) is
processed, contrary to the claimed per-book isolation. -/
theorem c6_fs_error_aborts_batch (idx : Index) (env : Env) (dest : List String)
    (ext : String) (group : Bool) (pre : List String) (doi : String) (rest : List String)
    (st0 st : DlState) (e : FsError)
    (hpre : dlBookList idx env dest ext group pre st0 = .ok st)
    (hmem : doi ∉ st.already)
    (hmk : mkdirExistOk st.dirs
        (bookFullPath idx dest (if group then alistGet idx.booksPackages doi "" else "")
          ext doi).dropLast = .error e) :
    dlBookList idx env dest ext group (pre ++ doi :: rest) st0 = .error (e, st) := by
  rw [dlBookList_append, hpre]
  dsimp only
  rw [dlBookList, _download_book_mkdir_error idx env doi dest ext _ st e hmem hmk]

/-- Witness for the corrected C6: destination `x/y` with neither `x` nor
`x/y` existing; the first book's mkdir fails and the second book is never
reached. -/
theorem c6_fs_error_aborts_batch_witness :
    dlBookList exIndex envAll200 ["x", "y"] "pdf" false ([] ++ "10.1/aaa" :: ["10.1/bbb"])
      ⟨[], [], []⟩ = .error (.mkdirFail ["x", "y"], ⟨[], [], []⟩) :=
  c6_fs_error_aborts_batch exIndex envAll200 ["x", "y"] "pdf" false [] "10.1/aaa"
    ["10.1/bbb"] ⟨[], [], []⟩ ⟨[], [], []⟩ (.mkdirFail ["x", "y"]) rfl (by decide) (by decide)

/-- Counterexample to **C6** as stated: with destination `x/y` missing (and
`x` missing too — `mkdir` is called without `parents=True`), `download_books`
on topic 1 (two books) returns a filesystem error with an empty event log:
the error was not contained to the first book, the second requested book was
never fetched, and the parent directory was not created. -/
theorem c6_counterexample :
    download_books exIndex envAll200 [1] ["x", "y"] "pdf" false [] =
      .error (.mkdirFail ["x", "y"], ⟨[], [], []⟩)
    ∧ "10.1/bbb" ∈ alistGet exIndex.topicsBooks 1 []
    ∧ fetchCount ⟨[], [], []⟩ "10.1/bbb" = 0
    ∧ fetchCount ⟨[], [], []⟩ "10.1/aaa" = 0 := by
  decide

/-- **C8, corrected**: the destination path is
`dest / (packageName if grouping else nothing) / withSuffix(sanitized, ext)`
where `sanitized` joins the whitespace-separated words of the title with
hyphens, but the extension is attached with `Path.with_suffix`, which
REPLACES from the last interior dot of the name: a title whose sanitized form
contains a dot loses everything from that dot on.  Only a dot-free name gets
the plain `name + "." + ext`. -/
theorem c8_with_suffix_amended (idx : Index) (env : Env) (doi : String)
    (dest : List String) (ext group : String) (st st1 : DlState)
    (hmem : doi ∉ st.already) (hstatus : env.status doi = 200)
    (hok : _download_book idx env doi dest ext group st = .ok st1) :
    st1.events = st.events ++ [.fetch doi,
      .write (dest ++ (if group = "" then [] else [group])
        ++ [pyWithSuffix (sanitizeTitle (alistGet idx.booksTitles doi ""))
            ("." ++ ext)]) doi]
    ∧ (∀ name sfx : String, rfindDot name.data = none → pyWithSuffix name sfx = name ++ sfx)
    ∧ (∀ (name sfx : String) (i : Nat), rfindDot name.data = some i →
        0 < i → i < name.data.length - 1 →
        pyWithSuffix name sfx = String.mk (name.data.take i) ++ sfx) := by
  refine ⟨?_, ?_, ?_⟩
  · rcases _download_book_ok_spec idx env doi dest ext group st st1 hok with
      ⟨hin, _⟩ | ⟨_, _, dirs1, _, rfl⟩ | ⟨_, hs, _, _, _⟩
    · exact absurd hin hmem
    · rfl
    · exact absurd hstatus hs
  · intro name sfx h
    rw [pyWithSuffix, h]
  · intro name sfx i h h1 h2
    rw [pyWithSuffix, h]
    exact if_pos ⟨h1, h2⟩

def exRecords2 : List RawRecord := [⟨"Python 3.8", "Pkg1", "Coding", "10.1/ddd"⟩]

def exIndex2 : Index := setup_globals exRecords2

/-- Witness for the corrected C8 at a dotted title. -/
theorem c8_with_suffix_amended_witness :
    (⟨[], ["10.1/ddd"],
        [.fetch "10.1/ddd", .write ["Python-3.pdf"] "10.1/ddd"]⟩ : DlState).events
      = (⟨[], [], []⟩ : DlState).events ++ [.fetch "10.1/ddd",
          .write (([] : List String) ++ (if ("" : String) = "" then [] else [""])
            ++ [pyWithSuffix (sanitizeTitle (alistGet exIndex2.booksTitles "10.1/ddd" ""))
                ("." ++ "pdf")]) "10.1/ddd"] :=
  (c8_with_suffix_amended exIndex2 envAll200 "10.1/ddd" [] "pdf" "" ⟨[], [], []⟩ _
    (by decide) rfl (by decide)).1

/-- Counterexample to **C8** as stated: the book titled `Python 3.8`
sanitizes to `Python-3.8`, but the file is written as `Python-3.pdf` —
`with_suffix` replaced `.8`, so the full sanitized title is NOT preserved for
titles containing dots. -/
theorem c8_counterexample :
    sanitizeTitle "Python 3.8" = "Python-3.8"
    ∧ download_books exIndex2 envAll200 [1] [] "pdf" false [] =
        .ok ⟨[], ["10.1/ddd"], [.fetch "10.1/ddd", .write ["Python-3.pdf"] "10.1/ddd"]⟩
    ∧ ("Python-3.pdf" : String) ≠ "Python-3.8" ++ ".pdf" := by
  decide

/-- **C1** (code bug): on the spec's own example (P = 2 packages, S = 2
subjects, subject IDs 3 and 4), `print_books_in_topic` rejects every subject
ID: its range check reads `len(PACKAGES_RELS) < idx <= len(SUBJECTS_RELS)`,
i.e. `P < idx <= S`, instead of `P < idx <= P+S`, so IDs 3 and 4 — which the
indexer itself assigned and `TOPICS_IDS` resolves — are reported as
`NO SUBJECT WITH ID = ...`.  Package IDs and the continue-on-invalid behavior
are as claimed. -/
theorem c1_subject_range_check_bug :
    print_books_in_topic exIndex [3] [] = [TopicOutput.noSubject 3]
    ∧ alistGet exIndex.topicsIds 3 "" = "Math"
    ∧ exIndex.packagesRels.length = 2
    ∧ exIndex.subjectsRels.length = 2
    ∧ ((2 : Int) < 3 ∧ (3 : Int) ≤ 2 + 2)
    ∧ print_books_in_topic exIndex [3, 4] [] =
        [TopicOutput.noSubject 3, TopicOutput.noSubject 4]
    ∧ print_books_in_topic exIndex [] [1] =
        [TopicOutput.packageBooks "Pkg1" ["Book A", "Book B"]]
    ∧ print_books_in_topic exIndex [] [5, 2] =
        [TopicOutput.noPackage 5, TopicOutput.packageBooks "Pkg2" ["Book C"]] := by
  decide

/-! ## No required-field validation in the indexer (claim C5) -/

theorem setup_globalsG_eq {τ : Type} (recs : List (RawRecordG τ)) :
    setup_globalsG recs = finalize (recs.foldl buildStep (emptyBuild τ)) := rfl

theorem finalize_booksTitles {τ : Type} (st : BuildState τ) :
    (finalize st).booksTitles = st.booksTitles := rfl

theorem subjFold_booksTitles {τ : Type} (pkg doi : String) :
    ∀ (subjects : List String) (st : BuildState τ),
      ((subjects.foldl (subjStep pkg doi) st)).booksTitles = st.booksTitles
  | [], _ => rfl
  | s :: rest, st => subjFold_booksTitles pkg doi rest (subjStep pkg doi st s)

theorem buildStep_booksTitles {τ : Type} (st : BuildState τ) (r : RawRecordG τ) :
    (buildStep st r).booksTitles = alistSet st.booksTitles r.doi r.title := by
  show alistSet (((processSubjects r.subjects).foldl (subjStep r.package r.doi)
    { st with
      packagesBooks := alistAppend st.packagesBooks r.package r.doi
      booksPackages := alistSet st.booksPackages r.doi r.package }).booksTitles)
    r.doi r.title = _
  rw [subjFold_booksTitles]

theorem mem_keys_booksTitles_foldl {τ : Type} :
    ∀ (recs : List (RawRecordG τ)) (st : BuildState τ) (k : String),
      (k ∈ (((recs.foldl buildStep st)).booksTitles.map Prod.fst) ↔
        k ∈ (st.booksTitles.map Prod.fst) ∨ k ∈ recs.map RawRecordG.doi)
  | [], st, k => by simp
  | r :: rest, st, k => by
    rw [List.foldl_cons, mem_keys_booksTitles_foldl rest _ k, buildStep_booksTitles,
      alistSet, mem_keys_upd]
    simp only [List.map_cons, List.mem_cons]
    tauto

/-- **C5, corrected**: the indexing pass performs no required-field
validation at all — there is no indexing error in the code.  In particular a
record whose title cell is missing (`None`) is indexed like any other: the
build always returns a complete catalog, the record's DOI is a key of
`BOOKS_TITLES` (with the missing title stored as its value), and its package
is assigned a package ID. -/
theorem c5_no_validation_amended (recs : List (RawRecordG (Option String)))
    (r : RawRecordG (Option String)) (hr : r ∈ recs) :
    r.doi ∈ (setup_globals_optTitle recs).booksTitles.map Prod.fst
    ∧ r.package ∈ (setup_globals_optTitle recs).idsOfPackages.map Prod.fst := by
  constructor
  · rw [setup_globals_optTitle, setup_globalsG_eq, finalize_booksTitles]
    exact (mem_keys_booksTitles_foldl recs (emptyBuild (Option String)) r.doi).mpr
      (Or.inr (List.mem_map.mpr ⟨r, hr, rfl⟩))
  · rw [setup_globals_optTitle, setup_globalsG_eq, finalize_idsOfPackages, enumFrom_fst,
      mem_pySorted]
    exact (mem_keys_packagesRels_foldl recs (emptyBuild (Option String)) r.package).mpr
      (Or.inr (List.mem_map.mpr ⟨r, hr, rfl⟩))

/-- Witness for the corrected C5 at a concrete record with a missing title. -/
theorem c5_no_validation_amended_witness :
    "10.1/aaa" ∈ (setup_globals_optTitle
        [⟨none, "Pkg1", "Math", "10.1/aaa"⟩]).booksTitles.map Prod.fst
    ∧ "Pkg1" ∈ (setup_globals_optTitle
        [⟨none, "Pkg1", "Math", "10.1/aaa"⟩]).idsOfPackages.map Prod.fst :=
  c5_no_validation_amended [⟨none, "Pkg1", "Math", "10.1/aaa"⟩]
    ⟨none, "Pkg1", "Math", "10.1/aaa"⟩ (List.mem_singleton.mpr rfl)

/-- Counterexample to **C5** as stated: a record set whose only record has a
missing title does not fail — the indexing pass returns this complete
catalog (the missing title stored verbatim). -/
theorem c5_no_validation_counterexample :
    setup_globals_optTitle [⟨none, "Pkg1", "Math", "10.1/aaa"⟩] =
      { booksTitles := [("10.1/aaa", none)]
        booksPackages := [("10.1/aaa", "Pkg1")]
        packagesBooks := [("Pkg1", ["10.1/aaa"])]
        subjectsBooks := [("Math", ["10.1/aaa"])]
        packagesRels := [("Pkg1", ["Math"])]
        subjectsRels := [("Math", ["Pkg1"])]
        idsOfPackages := [("Pkg1", 1)]
        idsOfSubjects := [("Math", 2)]
        topicsIds := [(1, "Pkg1"), (2, "Math")]
        topicsBooks := [(1, ["10.1/aaa"]), (2, ["10.1/aaa"])] } := by
  decide

end Freespringer
